import Mathlib

/-!
# Verification of the claude-workbench supervisory core

Shallow embedding of the Rust sources under `src-tauri/src` (path codec,
project registry, process supervisor commands, permission argument builder,
dynamic routing rules, router HTTP client, checkpoint commands) together
with proofs and refutations of the frozen specification claims.

Strings are modelled with Lean `String`/`List Char`.  Rust byte-level
operations (`str::len`, byte slicing) coincide with the char-level model on
ASCII data; the places where this matters are noted at each definition.
-/

/-! ## Path codec (`commands/claude.rs`) -/

/-- Rust `str::replace` specialised to a single-character pattern, acting on
the character list of the string.  All three calls in `encode_project_path`
and the one in `normalize_path_for_comparison` use one-character patterns,
for which Rust `replace` is exactly this character-wise traversal. -/
def replaceChar (c : Char) (rep : List Char) : List Char → List Char
  | [] => []
  | x :: xs => (if x = c then rep else [x]) ++ replaceChar c rep xs

/-- `encode_project_path` (claude.rs lines 219-223):
`path.replace("\\", "-").replace("/", "-").replace(":", "")`. -/
def encode_project_path (p : List Char) : List Char :=
  replaceChar ':' []
    (replaceChar '/' ['-']
      (replaceChar '\\' ['-'] p))

/-- The encoding as the spec sentence describes it, for comparison with the
source: replace path separators *and the drive-letter colon* with `-`. -/
def encode_project_path_claimed (p : List Char) : List Char :=
  replaceChar ':' ['-']
    (replaceChar '/' ['-']
      (replaceChar '\\' ['-'] p))

/-- Character-wise description of what the source encoding actually does:
separators become `-`, the colon is deleted, everything else is kept. -/
def encodeCharwise (p : List Char) : List Char :=
  p.filterMap (fun c =>
    if c = ':' then none
    else if c = '/' ∨ c = '\\' then some '-'
    else some c)

/-! ## Permission and execution argument builders (`commands/permission_config.rs`) -/

inductive PermissionMode where
  | Interactive
  | AcceptEdits
  | ReadOnly
deriving DecidableEq, Repr

/-- `Display for PermissionMode`. -/
def PermissionMode.display : PermissionMode → String
  | .Interactive => "interactive"
  | .AcceptEdits => "acceptEdits"
  | .ReadOnly => "readOnly"

structure ClaudePermissionConfig where
  allowed_tools : List String
  disallowed_tools : List String
  permission_mode : PermissionMode
  auto_approve_edits : Bool
  enable_dangerous_skip : Bool
deriving DecidableEq, Repr

/-- `build_permission_args` (permission_config.rs lines 92-118). -/
def build_permission_args (config : ClaudePermissionConfig) : List String :=
  if config.enable_dangerous_skip then
    ["--dangerously-skip-permissions"]
  else
    (if config.allowed_tools ≠ [] then
      ["--allowedTools", String.intercalate "," config.allowed_tools]
    else []) ++
    (if config.disallowed_tools ≠ [] then
      ["--disallowedTools", String.intercalate "," config.disallowed_tools]
    else []) ++
    ["--permission-mode", config.permission_mode.display]

inductive OutputFormat where
  | StreamJson
  | Json
  | Text
deriving DecidableEq, Repr

/-- `Display for OutputFormat`. -/
def OutputFormat.display : OutputFormat → String
  | .StreamJson => "stream-json"
  | .Json => "json"
  | .Text => "text"

structure ClaudeExecutionConfig where
  output_format : OutputFormat
  timeout_seconds : Option Nat
  max_tokens : Option Nat
  verbose : Bool
  permissions : ClaudePermissionConfig
deriving DecidableEq, Repr

/-- `build_execution_args` (permission_config.rs lines 121-165); the prompt
escaper is a parameter exactly as in the source (`escape_prompt_fn: impl Fn`). -/
def build_execution_args (config : ClaudeExecutionConfig) (prompt model : String)
    (escape : String → String) : List String :=
  [escape prompt, "--model", model, "--output-format", config.output_format.display] ++
  (if config.verbose then ["--verbose"] else []) ++
  (match config.timeout_seconds with
    | some t => ["--timeout", toString t]
    | none => []) ++
  (match config.max_tokens with
    | some m => ["--max-tokens", toString m]
    | none => []) ++
  build_permission_args config.permissions

/-! ## Resume / continue supervisor commands (`commands/claude.rs`) -/

/-- `map_model_to_claude_alias` (claude.rs lines 40-49). -/
def map_model_to_claude_alias (model : String) : String :=
  if model = "sonnet1m" then "sonnet[1m]"
  else if model = "sonnet" then "sonnet"
  else if model = "opus" then "opus"
  else model

/-- Outcome of one attempt to start the Agent CLI child process.
`spawnFail` covers `cmd.spawn()` returning `Err` (and the unreachable-in-practice
missing-pipe errors, which are also early returns); `spawned` means the OS
started the child, whose eventual exit status is `exitSuccess`. -/
inductive SpawnOutcome where
  | spawnFail (msg : String)
  | spawned (exitSuccess : Bool)
deriving DecidableEq, Repr

/-- `spawn_claude_process` (claude.rs lines 1830-2111): it returns an error
only when the spawn itself fails; once the child is running the function
returns `Ok(())` and the exit status — success or not — is reported later,
asynchronously, through `claude-complete` events, never as an `Err`. -/
def spawn_claude_process (outcome : SpawnOutcome) : Except String Unit :=
  match outcome with
  | .spawnFail msg => .error ("Failed to spawn Claude: " ++ msg)
  | .spawned _ => .ok ()

/-- `continue_claude_code` (claude.rs lines 1568-1604): map the model alias,
build the execution args, insert `-c` at position 0, spawn once.  The value
is the list of spawned argv lists paired with the command result.  Both this
command and `resume_claude_code` pass the same `escape_prompt_for_cli` to
`build_execution_args`; the escaper is kept as the `escape` parameter. -/
def continue_claude_code (config : ClaudeExecutionConfig) (prompt model : String)
    (escape : String → String) (outcome : SpawnOutcome) :
    List (List String) × Except String Unit :=
  let mapped := map_model_to_claude_alias model
  let args := "-c" :: build_execution_args config prompt mapped escape
  ([args], spawn_claude_process outcome)

/-- `resume_claude_code` (claude.rs lines 1609-1668): build the args with
`--resume <session_id>` at the front and spawn; if and only if
`spawn_claude_process` returns `Err`, fall back to `continue_claude_code`
with the same prompt and model.  `first` is the outcome of the resume spawn,
`second` the outcome of the fallback spawn should it happen. -/
def resume_claude_code (config : ClaudeExecutionConfig)
    (prompt model session_id : String) (escape : String → String)
    (first second : SpawnOutcome) :
    List (List String) × Except String Unit :=
  let mapped := map_model_to_claude_alias model
  let args := "--resume" :: session_id :: build_execution_args config prompt mapped escape
  match spawn_claude_process first with
  | .ok _ => ([args], .ok ())
  | .error _ =>
    let fallback := continue_claude_code config prompt model escape second
    (args :: fallback.fst, fallback.snd)

/-- `ClaudeExecutionConfig::default()` (permission_config.rs lines 69-79 and
20-35). -/
def claudeExecutionConfigDefault : ClaudeExecutionConfig :=
  { output_format := .StreamJson, timeout_seconds := none, max_tokens := none,
    verbose := true,
    permissions :=
      { allowed_tools := ["Read", "Write", "Edit", "Bash"], disallowed_tools := [],
        permission_mode := .Interactive, auto_approve_edits := false,
        enable_dangerous_skip := true } }

/-! ## Process registry lookups (`commands/claude.rs`) -/

structure ProcessInfo where
  run_id : Int
  pid : Nat
  session_id : String
deriving DecidableEq, Repr

/-- Modelled from the spec: the Process Registry implementation
(`src-tauri/src/process`) is not under `src/`; the spec describes it as an
in-memory table of live child processes keyed by child-assigned session id,
with at most one entry per session id.  `get_claude_session_by_id` looks the
session id up in that table. -/
def get_claude_session_by_id (registry : List ProcessInfo) (session_id : String) :
    Except String (Option ProcessInfo) :=
  .ok (registry.find? (fun p => p.session_id == session_id))

/-- Modelled from the spec: the registry exposes the live-output tail keyed by
run id; a run id with no recorded output reads as the empty string. -/
def get_live_output (live : List (Int × String)) (run_id : Int) :
    Except String String :=
  .ok ((live.lookup run_id).getD "")

/-- `get_claude_session_output` (claude.rs lines 1816-1827): look the session
up in the registry; a found process yields its live output, an absent one
yields `Ok` with the empty string, and only a registry error propagates. -/
def get_claude_session_output (registry : List ProcessInfo)
    (live : List (Int × String)) (session_id : String) : Except String String :=
  match get_claude_session_by_id registry session_id with
  | .error e => .error e
  | .ok (some info) => get_live_output live info.run_id
  | .ok none => .ok ""

/-! ## Hidden-projects list (`commands/claude.rs`) -/

/-- On-disk state of `hidden_projects.json`. -/
inductive HiddenProjectsFile where
  | absent
  | corrupt
  | content (ids : List String)
deriving DecidableEq, Repr

/-- Reading the hidden list in `delete_project` (claude.rs lines 778-784):
a missing file reads as the empty list, and an existing but unparseable file
also reads as the empty list (`unwrap_or_else(|_| Vec::new())`). -/
def readHiddenProjects : HiddenProjectsFile → List String
  | .absent => []
  | .corrupt => []
  | .content ids => ids

/-- Success message of `delete_project` (claude.rs line 797). -/
def delete_project_result_msg (project_id : String) : String :=
  "Project \x27" ++ project_id ++ "\x27 has been removed from the list (files are preserved)"

/-- `delete_project` (claude.rs lines 771-801): read the hidden list, append
the project id and rewrite the file only when the id is not already present,
and return the success message in every case. -/
def delete_project (file : HiddenProjectsFile) (project_id : String) :
    HiddenProjectsFile × Except String String :=
  let hidden := readHiddenProjects file
  if project_id ∈ hidden then
    (file, .ok (delete_project_result_msg project_id))
  else
    (.content (hidden ++ [project_id]), .ok (delete_project_result_msg project_id))

/-- Folding a sequence of `delete_project` calls over the hidden-list file. -/
def hideAll (file : HiddenProjectsFile) (ids : List String) : HiddenProjectsFile :=
  ids.foldl (fun f i => (delete_project f i).fst) file

/-! ## Cancellation (`commands/claude.rs`) -/

/-- UI event-bus emissions observable from `cancel_claude_execution`. -/
inductive UiEvent where
  | cancelledScoped (session_id : String) (payload : Bool)
  | completeScoped (session_id : String) (payload : Bool)
  | cancelledGeneric (payload : Bool)
  | completeGeneric (payload : Bool)
deriving DecidableEq, Repr

/-- Environment a `cancel_claude_execution` call runs against: the registry
lookup result, the registry kill result, the current-process slot (with the
optional OS pid the child reports), and the outcomes of the direct child kill
and of the last-resort system kill. -/
structure CancelEnv where
  registryEntry : Except String (Option ProcessInfo)
  registryKill : Except String Bool
  currentProcess : Option (Option Nat)
  childKillOk : Bool
  systemKillOk : Bool

/-- `cancel_claude_execution` (claude.rs lines 1672-1805).  Tier 1 kills via
the registry when the session id resolves to an entry; tier 2 takes the
current-process slot and kills the child; tier 3 falls back to an OS-level
kill when the direct kill failed and a pid is known.  Afterwards the events
are always emitted: scoped `claude-cancelled:<sid>` then, a 100 ms sleep
later, scoped `claude-complete:<sid>` with `false`; then the generic pair
with another 100 ms sleep in between.  The result carries the `killed` flag,
the `attempted_methods` list, and the timed trace `(ms since the emission
phase began, event)`. -/
def cancel_claude_execution (env : CancelEnv) (session_id : Option String) :
    Bool × List String × List (Nat × UiEvent) :=
  let killed1 : Bool :=
    match session_id, env.registryEntry with
    | some _, .ok (some _) =>
      match env.registryKill with
      | .ok success => success
      | .error _ => false
    | _, _ => false
  let attempted1 : List String :=
    match session_id, env.registryEntry with
    | some _, .ok (some _) => ["registry"]
    | _, _ => []
  let killed2 : Bool :=
    if killed1 then true
    else
      match env.currentProcess with
      | some pid =>
        if env.childKillOk then true
        else
          match pid with
          | some _ => env.systemKillOk
          | none => false
      | none => false
  let attempted2 : List String :=
    attempted1 ++
      (if killed1 then []
       else match env.currentProcess with
         | some _ => ["claude_state"]
         | none => [])
  let scopedEvents : List (Nat × UiEvent) :=
    match session_id with
    | some sid => [(0, .cancelledScoped sid true), (100, .completeScoped sid false)]
    | none => []
  let tGeneric : Nat := match session_id with | some _ => 100 | none => 0
  let genericEvents : List (Nat × UiEvent) :=
    [(tGeneric, .cancelledGeneric true), (tGeneric + 100, .completeGeneric false)]
  (killed2, attempted2, scopedEvents ++ genericEvents)

/-! ## Router HTTP client (`router/client.rs`) -/

structure HttpResponse where
  status : Nat
  body : String
deriving DecidableEq, Repr

/-- `reqwest::StatusCode::is_success`: the 2xx range. -/
def HttpResponse.is2xx (r : HttpResponse) : Bool :=
  decide (200 ≤ r.status) && decide (r.status < 300)

/-- Observable behaviour of one client call: which attempt indices issued a
request, which sleeps (in ms) happened, and the final outcome at the HTTP
level. -/
structure RetryTrace where
  requests : List Nat
  sleeps : List Nat
  result : Except String HttpResponse

/-- Loop of `send_with_retry` (client.rs lines 256-291).  `attempts` is the
list of remaining attempt indices out of `1..=max_retries` and `lastErr` the
running `last_error`; the transport gives each attempt's low-level outcome.
The source sleeps `1000 * attempt` ms when `attempt < max_retries`, which on
the suffix of `1..=max_retries` is exactly `rest ≠ []`. -/
def sendWithRetryGo (transport : Nat → Except String HttpResponse) :
    List Nat → Option String → RetryTrace
  | [], lastErr =>
    { requests := [], sleeps := [],
      result := .error (lastErr.getD "请求失败，未知错误") }
  | attempt :: rest, lastErr =>
    match transport attempt with
    | .ok resp =>
      if resp.is2xx then
        { requests := [attempt], sleeps := [], result := .ok resp }
      else
        let e := "HTTP " ++ toString resp.status ++ ": " ++ resp.body
        let t := sendWithRetryGo transport rest (some e)
        { requests := attempt :: t.requests,
          sleeps := (if rest ≠ [] then [1000 * attempt] else []) ++ t.sleeps,
          result := t.result }
    | .error e =>
      let t := sendWithRetryGo transport rest (some e)
      { requests := attempt :: t.requests,
        sleeps := (if rest ≠ [] then [1000 * attempt] else []) ++ t.sleeps,
        result := t.result }

/-- `send_with_retry` (client.rs lines 256-291): `for attempt in 1..=max_retries`. -/
def send_with_retry (max_retries : Nat)
    (transport : Nat → Except String HttpResponse) : RetryTrace :=
  sendWithRetryGo transport (List.range' 1 max_retries) none

/-- Shared shape of every endpoint other than `POST /claude`: one request,
no sleeps, no retry. -/
def send_once (transport : Nat → Except String HttpResponse) : RetryTrace :=
  { requests := [1], sleeps := [], result := transport 1 }

/-- `route_claude_request` (client.rs lines 53-93): send with retry, then
parse the JSON body (the parse itself is a parameter; a parse failure is
wrapped with its context message). -/
def route_claude_request (max_retries : Nat)
    (transport : Nat → Except String HttpResponse)
    (parse : HttpResponse → Except String String) :
    RetryTrace × Except String String :=
  let t := send_with_retry max_retries transport
  (t, match t.result with
      | .ok resp =>
        match parse resp with
        | .ok v => .ok v
        | .error e => .error ("解析Router响应失败: " ++ e)
      | .error e => .error e)

/-- `health_check` (client.rs lines 42-50): one GET; a 2xx means healthy,
any transport failure or timeout reads as `Ok(false)`. -/
def health_check (transport : Nat → Except String HttpResponse) :
    RetryTrace × Except String Bool :=
  let t := send_once transport
  (t, match t.result with
      | .ok resp => .ok resp.is2xx
      | .error _ => .ok false)

/-- `get_available_models` (client.rs lines 97-121); the 2xx body is handed
to the JSON layer (returned here as-is). -/
def get_available_models (transport : Nat → Except String HttpResponse) :
    RetryTrace × Except String String :=
  let t := send_once transport
  (t, match t.result with
      | .ok resp =>
        if resp.is2xx then .ok resp.body
        else .error ("获取模型列表失败, 状态码: " ++ toString resp.status)
      | .error e => .error ("获取模型列表请求失败: " ++ e))

/-- `switch_model` (client.rs lines 124-150). -/
def switch_model (transport : Nat → Except String HttpResponse) :
    RetryTrace × Except String Unit :=
  let t := send_once transport
  (t, match t.result with
      | .ok resp =>
        if resp.is2xx then .ok ()
        else .error ("模型切换失败: " ++ resp.body)
      | .error e => .error ("模型切换请求失败: " ++ e))

/-- `get_router_stats` (client.rs lines 153-174). -/
def get_router_stats (transport : Nat → Except String HttpResponse) :
    RetryTrace × Except String String :=
  let t := send_once transport
  (t, match t.result with
      | .ok resp =>
        if resp.is2xx then .ok resp.body
        else .error ("获取统计信息失败, 状态码: " ++ toString resp.status)
      | .error e => .error ("获取统计信息请求失败: " ++ e))

/-- `reset_router_stats` (client.rs lines 177-194). -/
def reset_router_stats (transport : Nat → Except String HttpResponse) :
    RetryTrace × Except String Unit :=
  let t := send_once transport
  (t, match t.result with
      | .ok resp =>
        if resp.is2xx then .ok ()
        else .error ("重置统计信息失败, 状态码: " ++ toString resp.status)
      | .error e => .error ("重置统计信息请求失败: " ++ e))

/-- `get_active_model` (client.rs lines 198-228); the 2xx body is handed to
the JSON layer. -/
def get_active_model (transport : Nat → Except String HttpResponse) :
    RetryTrace × Except String String :=
  let t := send_once transport
  (t, match t.result with
      | .ok resp =>
        if resp.is2xx then .ok resp.body
        else .error ("获取活跃模型失败, 状态码: " ++ toString resp.status)
      | .error e => .error ("获取活跃模型请求失败: " ++ e))

/-- `update_routing_config` (client.rs lines 232-253). -/
def update_routing_config (transport : Nat → Except String HttpResponse) :
    RetryTrace × Except String Unit :=
  let t := send_once transport
  (t, match t.result with
      | .ok resp =>
        if resp.is2xx then .ok ()
        else .error ("更新配置失败: " ++ resp.body)
      | .error e => .error ("更新配置请求失败: " ++ e))

/-- `test_connection` (client.rs lines 294-314); the elapsed time is a
parameter of the model. -/
def test_connection (transport : Nat → Except String HttpResponse)
    (elapsed_ms : Nat) : RetryTrace × Except String String :=
  let t := send_once transport
  (t, match t.result with
      | .ok resp =>
        if resp.is2xx then .ok ("连接正常，响应时间: " ++ toString elapsed_ms ++ "ms")
        else .error ("连接测试失败，状态码: " ++ toString resp.status)
      | .error e => .error ("连接测试失败: " ++ e))

/-! ## Dynamic routing rules (`commands/router_dynamic_rules.rs`) -/

structure DynamicRoutingRule where
  id : String
  keywords : List String
  target_model : String
  priority : Int
  enabled : Bool
deriving DecidableEq, Repr

/-- Rust `str::to_lowercase`, modelled character-wise with `Char.toLower`
(which agrees with Rust on ASCII; Rust additionally expands a handful of
multi-char Unicode lowerings). -/
def lowerStr (s : String) : List Char :=
  s.data.map Char.toLower

/-- One keyword test of the matcher:
`text.to_lowercase().contains(&keyword.to_lowercase())`. -/
def keywordMatches (text keyword : String) : Bool :=
  decide (lowerStr keyword <:+: lowerStr text)

/-- A rule fires on `text` when it is enabled and some keyword of it is a
case-insensitive substring of the text (the loop body of
`router_match_dynamic_rule`, lines 145-156). -/
def rule_matches (text : String) (r : DynamicRoutingRule) : Bool :=
  r.enabled && r.keywords.any (fun k => keywordMatches text k)

/-- `router_match_dynamic_rule` (router_dynamic_rules.rs lines 130-159): scan
the stored — already priority-sorted — rule list, skip disabled rules, and
return the first rule one of whose keywords matches. -/
def router_match_dynamic_rule (text : String)
    (rules : List DynamicRoutingRule) : Option DynamicRoutingRule :=
  rules.find? (rule_matches text)

/-- Stable insertion of `x` into `l` for a descending sort by the integer key
`f`: `x` goes after every element whose key is at least `f x`. -/
def insertDescBy (f : α → Int) (x : α) : List α → List α
  | [] => [x]
  | y :: ys => if f x ≤ f y then y :: insertDescBy f x ys else x :: y :: ys

/-- Stable descending sort by an integer key: the embedding of Rust
`Vec::sort_by(|a, b| key(b).cmp(&key(a)))`, which `slice::sort_by`
guarantees to be a stable sort; any stable sort — in particular this
insertion sort — computes the same list. -/
def sortByDesc (f : α → Int) (l : List α) : List α :=
  l.foldl (fun acc x => insertDescBy f x acc) []

/-- `router_add_dynamic_rule` (router_dynamic_rules.rs lines 24-54): reject a
duplicate rule id, push the rule, then re-sort by descending priority. -/
def router_add_dynamic_rule (rules : List DynamicRoutingRule)
    (rule : DynamicRoutingRule) : Except String (List DynamicRoutingRule) :=
  if rules.any (fun r => r.id == rule.id) then
    .error ("规则ID " ++ rule.id ++ " 已存在")
  else
    .ok (sortByDesc (fun r => r.priority) (rules ++ [rule]))

/-- The stored rule list produced by a sequence of
`router_add_dynamic_rule` calls starting from the empty configuration
(a rejected duplicate leaves the configuration unchanged). -/
def storedRulesOf (inserted : List DynamicRoutingRule) :
    List DynamicRoutingRule :=
  inserted.foldl (fun acc r =>
    match router_add_dynamic_rule acc r with
    | .ok l => l
    | .error _ => acc) []

/-- Descending sortedness by key `f`. -/
def SortedDescBy (f : α → Int) (l : List α) : Prop :=
  l.Pairwise (fun a b => f b ≤ f a)

/-! ## Project listing and deduplication (`commands/claude.rs`) -/

/-- `Project` (claude.rs lines 52-62); `created_at` holds the latest-activity
unix timestamp. -/
structure Project where
  id : String
  path : String
  sessions : List String
  created_at : Nat
deriving DecidableEq, Repr

/-- `normalize_path_for_comparison` (claude.rs lines 253-292) on the
character list: lowercase, strip the `\\?\` long-path prefix (the `\\?\UNC\`
else-branch of the source is kept although the first branch shadows it),
turn `\` into `/`, drop one trailing `/` (unless the whole string is just
it), drop a leading `/`, and collapse a drive letter `x:/rest` to `x/rest`
(`x:` alone to `x`).  The source indexes bytes; this model indexes
characters, which agrees on ASCII paths. -/
def normalizePathChars (path : List Char) : List Char :=
  let n0 := path.map Char.toLower
  let n1 :=
    if n0.take 4 = ['\\', '\\', '?', '\\'] then n0.drop 4
    else if n0.take 8 = ['\\', '\\', '?', '\\', 'u', 'n', 'c', '\\'] then
      '\\' :: '\\' :: n0.drop 8
    else n0
  let n2 := replaceChar '\\' ['/'] n1
  let n3 :=
    if n2.getLast? = some '/' ∧ 1 < n2.length then n2.dropLast else n2
  let n4 := if n3.head? = some '/' then n3.drop 1 else n3
  if 2 ≤ n4.length ∧ n4.get? 1 = some ':' then
    if n4.length = 2 then n4.take 1
    else if n4.get? 2 = some '/' then
      let drive := n4.take 1
      let rest := n4.drop 3
      if rest = [] then drive else drive ++ '/' :: rest
    else n4
  else n4

def normalize_path_for_comparison (s : String) : String :=
  ⟨normalizePathChars s.data⟩

/-- Rust `str::contains("--")`, a substring test. -/
def strContainsDashDash (s : String) : Bool :=
  decide ("--".data <:+: s.data)

/-- Rust `chars().any(|c| c.is_uppercase())` (ASCII-faithful via
`Char.isUpper`). -/
def strHasUppercase (s : String) : Bool :=
  s.data.any (fun c => c.isUpper)

/-- The `should_update_id` test of `list_projects` (claude.rs lines 638-647):
the incoming id replaces the current one when it is shorter, or has equal
length and lacks `--` while the current contains it, or has equal length and
contains an upper-case letter while the current has none.  (Rust `len()` is
the byte length, `utf8ByteSize` here.) -/
def should_update_id (newId curId : String) : Bool :=
  decide (newId.utf8ByteSize < curId.utf8ByteSize) ||
  (decide (newId.utf8ByteSize = curId.utf8ByteSize) &&
    !strContainsDashDash newId && strContainsDashDash curId) ||
  (decide (newId.utf8ByteSize = curId.utf8ByteSize) &&
    strHasUppercase newId && !strHasUppercase curId)

/-- Append `s` unless already present (one step of the session merge and of
the `retain`-with-`HashSet` duplicate removal). -/
def insertIfAbsent (acc : List String) (s : String) : List String :=
  if s ∈ acc then acc else acc ++ [s]

/-- Session merging inside a bucket (claude.rs lines 624-629): push every
incoming session that is not already present, in order. -/
def mergeSessions (existing newSessions : List String) : List String :=
  newSessions.foldl insertIfAbsent existing

/-- One merge of a duplicate project into its bucket representative
(claude.rs lines 618-652): union sessions, keep the greatest activity time,
and replace the id when `should_update_id` fires. -/
def mergeInto (existing incoming : Project) : Project :=
  { existing with
    sessions := mergeSessions existing.sessions incoming.sessions,
    created_at :=
      if existing.created_at < incoming.created_at then incoming.created_at
      else existing.created_at,
    id := if should_update_id incoming.id existing.id then incoming.id
      else existing.id }

/-- `HashMap::get` over the insertion-ordered association list that models
`unique_projects_map`. -/
def lookupProj (m : List (String × Project)) (k : String) : Option Project :=
  (m.find? (fun e => e.fst == k)).map (fun e => e.snd)

/-- `HashMap::get_mut` write-back: replace the value stored at key `k`. -/
def updateProj (m : List (String × Project)) (k : String) (p : Project) :
    List (String × Project) :=
  m.map (fun e => if e.fst == k then (k, p) else e)

/-- One iteration of the bucketing loop (claude.rs lines 613-659). -/
def dedupeStep (m : List (String × Project)) (p : Project) :
    List (String × Project) :=
  let k := normalize_path_for_comparison p.path
  match lookupProj m k with
  | some existing => updateProj m k (mergeInto existing p)
  | none => m ++ [(k, p)]

/-- `retain` with a `HashSet` (claude.rs lines 664-666): keep the first
occurrence of each element. -/
def dedupKeepFirst (l : List String) : List String :=
  l.foldl insertIfAbsent []

/-- The deduplication-and-sort tail of `list_projects` (claude.rs lines
609-679): fold all scanned projects into the normalized-path buckets, take
the bucket values (the Rust `HashMap::into_values` order is unspecified;
insertion order is used here — the properties proved below are
order-independent and the list is re-sorted immediately), drop duplicate
sessions within each project, and stable-sort by descending activity. -/
def list_projects_dedupe (all_projects : List Project) : List Project :=
  let m := all_projects.foldl dedupeStep []
  let vals := m.map (fun e => e.snd)
  let vals2 := vals.map (fun p => { p with sessions := dedupKeepFirst p.sessions })
  sortByDesc (fun p => (p.created_at : Int)) vals2

/-- The bucket of a normalized path: the scanned projects whose normalized
path equals `k`, in scan order. -/
def bucketOf (inputs : List Project) (k : String) : List Project :=
  inputs.filter (fun q => normalize_path_for_comparison q.path == k)

/-- Folding a bucket into its representative: the first member merged with
each later member in order. -/
def mergeBucket : List Project → Project
  | [] => { id := "", path := "", sessions := [], created_at := 0 }
  | b :: rest => rest.foldl mergeInto b

/-- The id produced by folding the source's replace-rule over a bucket's ids
in scan order. -/
def idFoldOf : List String → String
  | [] => ""
  | i :: rest => rest.foldl (fun cur n => if should_update_id n cur then n else cur) i

/-- Strictly-better comparison between candidate ids as the claim words the
choice rule: shorter wins; at equal length absence of `--` wins; at equal
length and equal `--`-status presence of an upper-case character wins. -/
def claimedIdBetter (a b : String) : Bool :=
  decide (a.utf8ByteSize < b.utf8ByteSize) ||
  (decide (a.utf8ByteSize = b.utf8ByteSize) &&
    !strContainsDashDash a && strContainsDashDash b) ||
  (decide (a.utf8ByteSize = b.utf8ByteSize) &&
    (strContainsDashDash a == strContainsDashDash b) &&
    strHasUppercase a && !strHasUppercase b)

/-! ## Checkpoint restore command (`commands/claude.rs`) -/

inductive RestoreMode where
  | ConversationOnly
  | CodeOnly
  | Both
deriving DecidableEq, Repr

/-- Mode parsing of the `restore_checkpoint` command (claude.rs lines
2389-2396); an absent mode defaults to `Both`, an unknown one is an error. -/
def parse_restore_mode : Option String → Except String RestoreMode
  | some "conversation_only" => .ok .ConversationOnly
  | some "code_only" => .ok .CodeOnly
  | some "both" => .ok .Both
  | none => .ok .Both
  | some other =>
    .error ("Invalid restore mode: " ++ other ++
      ". Valid values are: conversation_only, code_only, both")

/-- A stored checkpoint: its owning ids and the ordered tracked raw JSONL
lines. -/
structure CheckpointData where
  project_id : String
  session_id : String
  tracked_messages : List String
deriving DecidableEq, Repr

/-- The checkpoint store, keyed by `(project_id, session_id, checkpoint_id)`
as laid out under `projects/<project>/checkpoints/<session>/<checkpoint>`. -/
abbrev CheckpointStore := List ((String × String × String) × CheckpointData)

/-- Modelled from the spec: the checkpoint storage (`crate::checkpoint`,
whose implementation is not under `src/`) must round-trip
`{metadata, messages, files}`; `load_checkpoint` returns the stored triple,
whose `messages` component is the concatenated bytes of the checkpoint's
tracked raw lines.  Only the messages component is modelled. -/
def load_checkpoint (store : CheckpointStore)
    (project_id session_id checkpoint_id : String) : Except String String :=
  match store.find? (fun e => e.fst == (project_id, session_id, checkpoint_id)) with
  | some e => .ok (String.join e.snd.tracked_messages)
  | none => .error "checkpoint not found"

/-- Modelled from the spec: `restore_checkpoint_with_mode` (checkpoint
manager, not under `src/`) restores the manager's in-memory state — which
the claim does not observe — and returns a result carrying the checkpoint;
it fails when the checkpoint does not exist. -/
def restore_checkpoint_with_mode (store : CheckpointStore)
    (project_id session_id checkpoint_id : String) (mode : RestoreMode) :
    Except String CheckpointData :=
  match store.find? (fun e => e.fst == (project_id, session_id, checkpoint_id)) with
  | some e => .ok e.snd
  | none => .error "checkpoint not found"

/-- The session-file region of the filesystem: newest write first. -/
abbrev SessionFs := List (String × String)

def fsWrite (fs : SessionFs) (path content : String) : SessionFs :=
  (path, content) :: fs

def fsRead (fs : SessionFs) (path : String) : Option String :=
  ((List.find? (fun e => e.fst == path) fs)).map (fun e => e.snd)

/-- The on-disk session transcript location
`<claude_dir>/projects/<project_id>/<session_id>.jsonl`. -/
def session_jsonl_path (project_id session_id : String) : String :=
  "projects/" ++ project_id ++ "/" ++ session_id ++ ".jsonl"

/-- `restore_checkpoint` command (claude.rs lines 2378-2440): parse the mode,
let the manager restore, and — for `ConversationOnly` and `Both` only —
overwrite the session JSONL at
`projects/<result.checkpoint.project_id>/<session_id>.jsonl` with the
loaded checkpoint messages (`fs::write(&session_path, messages)`). -/
def restore_checkpoint (store : CheckpointStore) (fs : SessionFs)
    (checkpoint_id session_id project_id : String)
    (restore_mode : Option String) :
    Except String (SessionFs × CheckpointData) :=
  match parse_restore_mode restore_mode with
  | .error e => .error e
  | .ok mode =>
    match restore_checkpoint_with_mode store project_id session_id
        checkpoint_id mode with
    | .error e => .error ("Failed to restore checkpoint: " ++ e)
    | .ok result =>
      if mode = .ConversationOnly ∨ mode = .Both then
        match load_checkpoint store result.project_id session_id
            checkpoint_id with
        | .error e => .error ("Failed to load checkpoint data: " ++ e)
        | .ok messages =>
          .ok (fsWrite fs (session_jsonl_path result.project_id session_id)
                messages, result)
      else
        .ok (fs, result)

/-! ## Theorems for C5 (path encoding) and C8 (legacy permission switch) -/

theorem replaceChar_append (c : Char) (rep : List Char) (a b : List Char) :
    replaceChar c rep (a ++ b) = replaceChar c rep a ++ replaceChar c rep b := by
  induction a with
  | nil => rfl
  | cons x xs ih => simp [replaceChar, ih]

/-- C5 counterexample: the claim says the drive-letter colon is replaced by
the character `-`, but `encode_project_path` deletes the colon instead
(`.replace(":", "")`): on the concrete path `C:/x` the source produces
`C-x` while the claimed encoding produces `C--x`. -/
theorem c5_encode_colon_counterexample :
    encode_project_path ("C:/x".data) = "C-x".data ∧
    encode_project_path_claimed ("C:/x".data) = "C--x".data ∧
    encode_project_path ("C:/x".data) ≠ encode_project_path_claimed ("C:/x".data) := by
  decide

/-- C5 (amended): the encoded project directory name is produced by replacing
every path separator with `-` and *deleting* the drive-letter colon, keeping
every other character: the three `replace` passes of `encode_project_path`
equal a single character-wise pass. -/
theorem c5_encode_project_path_charwise (p : List Char) :
    encode_project_path p = encodeCharwise p := by
  induction p with
  | nil => rfl
  | cons x xs ih =>
    by_cases h1 : x = '\\'
    · subst h1
      simpa [encode_project_path, encodeCharwise, replaceChar, replaceChar_append] using ih
    · by_cases h2 : x = '/'
      · subst h2
        simpa [encode_project_path, encodeCharwise, replaceChar, replaceChar_append] using ih
      · by_cases h3 : x = ':'
        · subst h3
          simpa [encode_project_path, encodeCharwise, replaceChar, replaceChar_append] using ih
        · simpa [encode_project_path, encodeCharwise, replaceChar, replaceChar_append,
            h1, h2, h3] using ih

/-- C8: whenever the legacy dangerous-skip flag is set, `build_permission_args`
returns exactly `["--dangerously-skip-permissions"]`, dropping the
`--allowedTools`, `--disallowedTools` and `--permission-mode` flags whatever
the other fields hold. -/
theorem c8_build_permission_args_dangerous_skip (config : ClaudePermissionConfig)
    (h : config.enable_dangerous_skip = true) :
    build_permission_args config = ["--dangerously-skip-permissions"] := by
  simp [build_permission_args, h]

/-- C8 witness: a concrete config with non-empty tool lists and a non-default
mode still collapses to the single legacy switch. -/
theorem c8_build_permission_args_dangerous_skip_witness :
    ({ allowed_tools := ["Read", "Write"], disallowed_tools := ["Bash"],
       permission_mode := .AcceptEdits, auto_approve_edits := true,
       enable_dangerous_skip := true } : ClaudePermissionConfig).enable_dangerous_skip = true ∧
    build_permission_args
      { allowed_tools := ["Read", "Write"], disallowed_tools := ["Bash"],
        permission_mode := .AcceptEdits, auto_approve_edits := true,
        enable_dangerous_skip := true } = ["--dangerously-skip-permissions"] :=
  ⟨rfl, c8_build_permission_args_dangerous_skip _ rfl⟩

/-! ## Theorems for C3 (resume fallback), C6 (cancellation events),
C9 (session output of unknown session), C10 (hide idempotence) -/

/-- C3 counterexample: the claim says the fallback also fires when the resumed
child immediately exits with a non-zero status.  Concretely, with the default
execution config, prompt `p`, model `m`, session `s`, a resume spawn that
succeeds but whose child exits non-zero, and a fallback spawn that would
succeed: only the single `--resume` argv is ever spawned, no argv contains
`-c`, and the command still returns `Ok` — no retry happens. -/
theorem c3_resume_no_fallback_on_nonzero_exit :
    (resume_claude_code claudeExecutionConfigDefault "p" "m" "s" id
        (.spawned false) (.spawned true)).fst.length = 1 ∧
    (∀ a ∈ (resume_claude_code claudeExecutionConfigDefault "p" "m" "s" id
        (.spawned false) (.spawned true)).fst, "-c" ∉ a) ∧
    (resume_claude_code claudeExecutionConfigDefault "p" "m" "s" id
        (.spawned false) (.spawned true)).snd = .ok () := by
  refine ⟨rfl, ?_, rfl⟩
  intro a ha
  simp only [resume_claude_code, spawn_claude_process, claudeExecutionConfigDefault,
    build_execution_args, build_permission_args, map_model_to_claude_alias,
    List.mem_singleton] at ha
  subst ha
  decide

/-- C3 (amended): the supervisor falls back to continue mode exactly when the
resume spawn itself fails: in that case it retries exactly once with `-c`
prepended to the same argument list (same prompt, same model), while a
successful spawn — whatever the child's exit status, including an immediate
non-zero exit — never triggers a retry. -/
theorem c3_resume_fallback_on_spawn_failure_only (config : ClaudeExecutionConfig)
    (prompt model session_id : String) (escape : String → String)
    (first second : SpawnOutcome) :
    (resume_claude_code config prompt model session_id escape first second).fst =
      (match first with
        | .spawnFail _ =>
          ["--resume" :: session_id ::
              build_execution_args config prompt (map_model_to_claude_alias model) escape,
           "-c" ::
              build_execution_args config prompt (map_model_to_claude_alias model) escape]
        | .spawned _ =>
          ["--resume" :: session_id ::
              build_execution_args config prompt (map_model_to_claude_alias model) escape]) ∧
    (resume_claude_code config prompt model session_id escape first second).snd =
      (match first with
        | .spawnFail _ => spawn_claude_process second
        | .spawned _ => .ok ()) := by
  cases first <;>
    simp [resume_claude_code, continue_claude_code, spawn_claude_process]

/-- C6: for every environment — including one where no kill tier finds a live
process — and every session id, the cancellation trace contains
`claude-cancelled:<sid>` with payload `true` and, at least 100 ms later,
`claude-complete:<sid>` with payload `false`. -/
theorem c6_cancel_always_emits_events (env : CancelEnv) (sid : String) :
    ∃ t1 t2,
      (t1, UiEvent.cancelledScoped sid true) ∈
        (cancel_claude_execution env (some sid)).2.2 ∧
      (t2, UiEvent.completeScoped sid false) ∈
        (cancel_claude_execution env (some sid)).2.2 ∧
      t1 + 100 ≤ t2 := by
  refine ⟨0, 100, ?_, ?_, by omega⟩ <;> simp [cancel_claude_execution]

/-- C9: when no registered running process carries the requested session id,
`get_claude_session_output` returns `Ok` with the empty string rather than an
error. -/
theorem c9_session_output_empty_when_unregistered (registry : List ProcessInfo)
    (live : List (Int × String)) (session_id : String)
    (h : ∀ p ∈ registry, p.session_id ≠ session_id) :
    get_claude_session_output registry live session_id = .ok "" := by
  have hfind : registry.find? (fun p => p.session_id == session_id) = none := by
    apply List.find?_eq_none.mpr
    intro p hp
    simpa using h p hp
  simp [get_claude_session_output, get_claude_session_by_id, hfind]

/-- C9 witness: a registry holding only session `a` yields `Ok ""` for
session `b`. -/
theorem c9_session_output_empty_when_unregistered_witness :
    (∀ p ∈ [({ run_id := 1, pid := 17, session_id := "a" } : ProcessInfo)],
        p.session_id ≠ "b") ∧
    get_claude_session_output [{ run_id := 1, pid := 17, session_id := "a" }]
        [(1, "tail")] "b" = .ok "" :=
  ⟨by decide, c9_session_output_empty_when_unregistered _ _ _ (by decide)⟩

/-- C10: hiding is idempotent — when the project id is already in the hidden
list, `delete_project` leaves the file untouched and still returns the
success message — and, starting from a duplicate-free hidden list, any
sequence of `delete_project` calls keeps the list duplicate-free, so each id
appears at most once. -/
theorem readHiddenProjects_delete_fst (file : HiddenProjectsFile) (i : String) :
    readHiddenProjects (delete_project file i).fst =
      if i ∈ readHiddenProjects file then readHiddenProjects file
      else readHiddenProjects file ++ [i] := by
  by_cases hmem : i ∈ readHiddenProjects file
  · have hfst : (delete_project file i).fst = file := by
      simp [delete_project, hmem]
    rw [hfst, if_pos hmem]
  · have hfst : (delete_project file i).fst =
        .content (readHiddenProjects file ++ [i]) := by
      simp [delete_project, hmem]
    rw [hfst, if_neg hmem]
    rfl

theorem c10_delete_project_idempotent (file : HiddenProjectsFile)
    (project_id : String) (ids : List String) :
    (project_id ∈ readHiddenProjects file →
      delete_project file project_id =
        (file, .ok (delete_project_result_msg project_id))) ∧
    ((readHiddenProjects file).Nodup →
      (readHiddenProjects (hideAll file ids)).Nodup) := by
  constructor
  · intro hmem
    simp [delete_project, hmem]
  · intro hnodup
    induction ids generalizing file with
    | nil => simpa [hideAll] using hnodup
    | cons i rest ih =>
      have hstep : (readHiddenProjects (delete_project file i).fst).Nodup := by
        rw [readHiddenProjects_delete_fst]
        by_cases hmem : i ∈ readHiddenProjects file
        · simpa [hmem] using hnodup
        · simp [hmem, List.nodup_append, hnodup]
      simpa [hideAll] using ih _ hstep

/-- C10 witness: with the id `p` already hidden, hiding it again changes
nothing and succeeds, and a call sequence keeps the list duplicate-free. -/
theorem c10_delete_project_idempotent_witness :
    ("p" ∈ readHiddenProjects (.content ["p", "q"]) →
      delete_project (.content ["p", "q"]) "p" =
        (.content ["p", "q"], .ok (delete_project_result_msg "p"))) ∧
    ((readHiddenProjects (.content ["p", "q"])).Nodup →
      (readHiddenProjects (hideAll (.content ["p", "q"]) ["p", "r", "p"])).Nodup) :=
  c10_delete_project_idempotent (.content ["p", "q"]) "p" ["p", "r", "p"]

/-! ## Theorems for C7 (router client retry policy) -/

theorem sendWithRetryGo_requests_ne_nil
    (transport : Nat → Except String HttpResponse) (a : Nat) (rest : List Nat)
    (lastErr : Option String) :
    (sendWithRetryGo transport (a :: rest) lastErr).requests ≠ [] := by
  cases htr : transport a with
  | ok resp =>
    by_cases h2 : resp.is2xx <;> simp [sendWithRetryGo, htr, h2]
  | error e => simp [sendWithRetryGo, htr]

theorem sendWithRetryGo_requests_take
    (transport : Nat → Except String HttpResponse) (l : List Nat)
    (lastErr : Option String) :
    ∃ k, (sendWithRetryGo transport l lastErr).requests = l.take k := by
  induction l generalizing lastErr with
  | nil => exact ⟨0, rfl⟩
  | cons a rest ih =>
    cases htr : transport a with
    | ok resp =>
      by_cases h2 : resp.is2xx
      · exact ⟨1, by simp [sendWithRetryGo, htr, h2]⟩
      · obtain ⟨k, hk⟩ := ih (some ("HTTP " ++ toString resp.status ++ ": " ++ resp.body))
        exact ⟨k + 1, by simp [sendWithRetryGo, htr, h2, hk]⟩
    | error e =>
      obtain ⟨k, hk⟩ := ih (some e)
      exact ⟨k + 1, by simp [sendWithRetryGo, htr, hk]⟩

theorem sendWithRetryGo_cons_fail
    (transport : Nat → Except String HttpResponse) (a : Nat) (rest : List Nat)
    (lastErr : Option String) (resp : HttpResponse)
    (htr : transport a = .ok resp) (h2 : resp.is2xx = false) :
    sendWithRetryGo transport (a :: rest) lastErr =
      { requests := a :: (sendWithRetryGo transport rest
          (some ("HTTP " ++ toString resp.status ++ ": " ++ resp.body))).requests,
        sleeps := (if rest ≠ [] then [1000 * a] else []) ++
          (sendWithRetryGo transport rest
            (some ("HTTP " ++ toString resp.status ++ ": " ++ resp.body))).sleeps,
        result := (sendWithRetryGo transport rest
          (some ("HTTP " ++ toString resp.status ++ ": " ++ resp.body))).result } := by
  simp [sendWithRetryGo, htr, h2]

theorem sendWithRetryGo_cons_err
    (transport : Nat → Except String HttpResponse) (a : Nat) (rest : List Nat)
    (lastErr : Option String) (e : String) (htr : transport a = .error e) :
    sendWithRetryGo transport (a :: rest) lastErr =
      { requests := a :: (sendWithRetryGo transport rest (some e)).requests,
        sleeps := (if rest ≠ [] then [1000 * a] else []) ++
          (sendWithRetryGo transport rest (some e)).sleeps,
        result := (sendWithRetryGo transport rest (some e)).result } := by
  simp [sendWithRetryGo, htr]

theorem sendWithRetryGo_sleeps
    (transport : Nat → Except String HttpResponse) (l : List Nat)
    (lastErr : Option String) :
    (sendWithRetryGo transport l lastErr).sleeps =
      ((sendWithRetryGo transport l lastErr).requests).dropLast.map
        (fun a => 1000 * a) := by
  induction l generalizing lastErr with
  | nil => rfl
  | cons a rest ih =>
    cases htr : transport a with
    | ok resp =>
      by_cases h2 : resp.is2xx
      · simp [sendWithRetryGo, htr, h2]
      · rw [sendWithRetryGo_cons_fail transport a rest lastErr resp htr
          (by simpa using h2)]
        by_cases hrest : rest = []
        · subst hrest
          simp [sendWithRetryGo]
        · obtain ⟨x, xs, hx⟩ := List.exists_cons_of_ne_nil
            (l := (sendWithRetryGo transport rest
              (some ("HTTP " ++ toString resp.status ++ ": " ++ resp.body))).requests)
            (by
              obtain ⟨b, brest, hb⟩ := List.exists_cons_of_ne_nil hrest
              rw [hb]
              exact sendWithRetryGo_requests_ne_nil transport b brest _)
          simp [hrest, hx, ih, List.dropLast_cons₂]
    | error e =>
      rw [sendWithRetryGo_cons_err transport a rest lastErr e htr]
      by_cases hrest : rest = []
      · subst hrest
        simp [sendWithRetryGo]
      · obtain ⟨x, xs, hx⟩ := List.exists_cons_of_ne_nil
          (l := (sendWithRetryGo transport rest (some e)).requests)
          (by
            obtain ⟨b, brest, hb⟩ := List.exists_cons_of_ne_nil hrest
            rw [hb]
            exact sendWithRetryGo_requests_ne_nil transport b brest _)
        simp [hrest, hx, ih, List.dropLast_cons₂]

theorem sendWithRetryGo_ok
    (transport : Nat → Except String HttpResponse) (l : List Nat)
    (lastErr : Option String) (resp : HttpResponse)
    (h : (sendWithRetryGo transport l lastErr).result = .ok resp) :
    resp.is2xx = true ∧ ∃ a ∈ l, transport a = .ok resp := by
  induction l generalizing lastErr with
  | nil => simp [sendWithRetryGo] at h
  | cons a rest ih =>
    cases htr : transport a with
    | ok r =>
      by_cases h2 : r.is2xx
      · have : r = resp := by simpa [sendWithRetryGo, htr, h2] using h
        subst this
        exact ⟨h2, a, by simp, htr⟩
      · have h' : (sendWithRetryGo transport rest
            (some ("HTTP " ++ toString r.status ++ ": " ++ r.body))).result = .ok resp := by
          simpa [sendWithRetryGo, htr, h2] using h
        obtain ⟨hx, b, hb, htb⟩ := ih _ h'
        exact ⟨hx, b, by simp [hb], htb⟩
    | error e =>
      have h' : (sendWithRetryGo transport rest (some e)).result = .ok resp := by
        simpa [sendWithRetryGo, htr] using h
      obtain ⟨hx, b, hb, htb⟩ := ih _ h'
      exact ⟨hx, b, by simp [hb], htb⟩

theorem sendWithRetryGo_all_non2xx
    (transport : Nat → Except String HttpResponse) (l : List Nat)
    (lastErr : Option String) (hne : l ≠ [])
    (hall : ∀ a ∈ l, ∃ r, transport a = .ok r ∧ r.is2xx = false) :
    ∃ a r, l.getLast? = some a ∧ transport a = .ok r ∧
      (sendWithRetryGo transport l lastErr).result =
        .error ("HTTP " ++ toString r.status ++ ": " ++ r.body) := by
  induction l generalizing lastErr with
  | nil => exact absurd rfl hne
  | cons a rest ih =>
    obtain ⟨r, htr, h2⟩ := hall a (by simp)
    by_cases hrest : rest = []
    · subst hrest
      refine ⟨a, r, by simp, htr, ?_⟩
      rw [sendWithRetryGo_cons_fail transport a [] lastErr r htr h2]
      simp [sendWithRetryGo]
    · obtain ⟨a2, r2, hlast, htr2, hres⟩ :=
        ih (some ("HTTP " ++ toString r.status ++ ": " ++ r.body))
          hrest (fun x hx => hall x (by simp [hx]))
      refine ⟨a2, r2, ?_, htr2, ?_⟩
      · rw [← hlast]
        obtain ⟨b, brest, hb⟩ := List.exists_cons_of_ne_nil hrest
        rw [hb, List.getLast?_cons_cons]
      · rw [sendWithRetryGo_cons_fail transport a rest lastErr r htr h2]
        exact hres

/-- C7: `POST /claude` makes at most `max_retries` attempts (its requests are
a prefix of `1..=max_retries`), sleeps exactly `attempt * 1000` ms between
consecutive attempts, accepts only a 2xx response as success, and — when
every attempt yields a non-2xx response — fails with an error message that
preserves the HTTP status of the last response; every other endpoint of the
client issues exactly one request with no retry and no sleeps. -/
theorem c7_router_client_retry_policy (max_retries : Nat)
    (transport : Nat → Except String HttpResponse)
    (parse : HttpResponse → Except String String) (elapsed_ms : Nat) :
    (send_with_retry max_retries transport).requests.length ≤ max_retries ∧
    (∃ k, (send_with_retry max_retries transport).requests =
      (List.range' 1 max_retries).take k) ∧
    (send_with_retry max_retries transport).sleeps =
      ((send_with_retry max_retries transport).requests).dropLast.map
        (fun a => 1000 * a) ∧
    (∀ resp, (send_with_retry max_retries transport).result = .ok resp →
      resp.is2xx = true ∧
        ∃ a, (1 ≤ a ∧ a ≤ max_retries) ∧ transport a = .ok resp) ∧
    (1 ≤ max_retries →
      (∀ a, 1 ≤ a → a ≤ max_retries →
        ∃ r, transport a = .ok r ∧ r.is2xx = false) →
      ∃ r, transport max_retries = .ok r ∧
        (send_with_retry max_retries transport).result =
          .error ("HTTP " ++ toString r.status ++ ": " ++ r.body)) ∧
    (route_claude_request max_retries transport parse).fst.requests =
      (send_with_retry max_retries transport).requests ∧
    (health_check transport).fst.requests = [1] ∧
    (health_check transport).fst.sleeps = [] ∧
    (get_available_models transport).fst.requests = [1] ∧
    (get_available_models transport).fst.sleeps = [] ∧
    (switch_model transport).fst.requests = [1] ∧
    (switch_model transport).fst.sleeps = [] ∧
    (get_router_stats transport).fst.requests = [1] ∧
    (get_router_stats transport).fst.sleeps = [] ∧
    (reset_router_stats transport).fst.requests = [1] ∧
    (reset_router_stats transport).fst.sleeps = [] ∧
    (get_active_model transport).fst.requests = [1] ∧
    (get_active_model transport).fst.sleeps = [] ∧
    (update_routing_config transport).fst.requests = [1] ∧
    (update_routing_config transport).fst.sleeps = [] ∧
    (test_connection transport elapsed_ms).fst.requests = [1] ∧
    (test_connection transport elapsed_ms).fst.sleeps = [] := by
  refine ⟨?_, ?_, ?_, ?_, ?_, rfl, rfl, rfl, rfl, rfl, rfl, rfl, rfl, rfl,
    rfl, rfl, rfl, rfl, rfl, rfl, rfl, rfl⟩
  · obtain ⟨k, hk⟩ := sendWithRetryGo_requests_take transport
      (List.range' 1 max_retries) none
    rw [send_with_retry, hk, List.length_take]
    simpa using Nat.min_le_right k max_retries
  · exact sendWithRetryGo_requests_take transport (List.range' 1 max_retries) none
  · exact sendWithRetryGo_sleeps transport (List.range' 1 max_retries) none
  · intro resp h
    obtain ⟨h2, a, ha, htr⟩ := sendWithRetryGo_ok transport _ none resp h
    obtain ⟨ha1, ha2⟩ := List.mem_range'_1.mp ha
    exact ⟨h2, a, ⟨ha1, by omega⟩, htr⟩
  · intro hpos hall
    obtain ⟨a, r, hlast, htr, hres⟩ := sendWithRetryGo_all_non2xx transport
      (List.range' 1 max_retries) none
      (by simpa [List.range'_ne_nil] using Nat.one_le_iff_ne_zero.mp hpos)
      (by
        intro x hx
        obtain ⟨hx1, hx2⟩ := (List.mem_range'_1).mp hx
        exact hall x hx1 (by omega))
    have hlastval : a = max_retries := by
      rw [List.getLast?_range'] at hlast
      have hnz : max_retries ≠ 0 := Nat.one_le_iff_ne_zero.mp hpos
      simp [hnz] at hlast
      omega
    subst hlastval
    exact ⟨r, htr, hres⟩

/-- C7 witness: with `max_retries = 2` and a transport that always answers
404, the send fails with an error preserving status 404. -/
theorem c7_router_client_retry_policy_witness :
    ∃ r, (fun _ : Nat => (.ok ⟨404, "nf"⟩ : Except String HttpResponse)) 2 = .ok r ∧
      (send_with_retry 2 (fun _ => .ok ⟨404, "nf"⟩)).result =
        .error ("HTTP " ++ toString r.status ++ ": " ++ r.body) :=
  (c7_router_client_retry_policy 2 (fun _ => .ok ⟨404, "nf"⟩)
      (fun r => .ok r.body) 0).2.2.2.2.1
    (by decide) (fun a _ _ => ⟨⟨404, "nf"⟩, rfl, by decide⟩)

/-! ## Theorems for C4 (dynamic rule matching) -/

theorem insertDescBy_perm (f : α → Int) (x : α) (l : List α) :
    (insertDescBy f x l).Perm (x :: l) := by
  induction l with
  | nil => exact List.Perm.refl _
  | cons y ys ih =>
    rw [insertDescBy]
    by_cases h : f x ≤ f y
    · rw [if_pos h]
      exact (ih.cons y).trans (List.Perm.swap x y ys)
    · rw [if_neg h]

theorem sortByDesc_append_singleton (f : α → Int) (l : List α) (x : α) :
    sortByDesc f (l ++ [x]) = insertDescBy f x (sortByDesc f l) := by
  simp [sortByDesc, List.foldl_append]

theorem sortByDesc_perm (f : α → Int) (l : List α) :
    (sortByDesc f l).Perm l := by
  induction l using List.reverseRecOn with
  | nil => exact List.Perm.refl _
  | append_singleton l x ih =>
    rw [sortByDesc_append_singleton]
    exact ((insertDescBy_perm f x _).trans (ih.cons x)).trans
      (List.perm_append_singleton x l).symm

theorem insertDescBy_sorted (f : α → Int) (x : α) (l : List α)
    (h : SortedDescBy f l) : SortedDescBy f (insertDescBy f x l) := by
  induction l with
  | nil => simp [insertDescBy, SortedDescBy]
  | cons y ys ih =>
    rcases List.pairwise_cons.mp h with ⟨hy, hys⟩
    rw [insertDescBy]
    by_cases hcmp : f x ≤ f y
    · rw [if_pos hcmp]
      refine List.pairwise_cons.mpr ⟨?_, ih hys⟩
      intro z hz
      rcases List.mem_cons.mp ((insertDescBy_perm f x ys).mem_iff.mp hz) with rfl | hzys
      · exact hcmp
      · exact hy z hzys
    · rw [if_neg hcmp]
      push_neg at hcmp
      refine List.pairwise_cons.mpr ⟨?_, h⟩
      intro z hz
      rcases List.mem_cons.mp hz with rfl | hzys
      · exact le_of_lt hcmp
      · exact le_trans (hy z hzys) (le_of_lt hcmp)

theorem sortByDesc_sorted (f : α → Int) (l : List α) :
    SortedDescBy f (sortByDesc f l) := by
  induction l using List.reverseRecOn with
  | nil => simp [sortByDesc, SortedDescBy]
  | append_singleton l x ih =>
    rw [sortByDesc_append_singleton]
    exact insertDescBy_sorted f x _ ih

theorem insertDescBy_of_all_ge (f : α → Int) (x : α) (l : List α)
    (h : ∀ y ∈ l, f x ≤ f y) : insertDescBy f x l = l ++ [x] := by
  induction l with
  | nil => rfl
  | cons y ys ih =>
    rw [insertDescBy, if_pos (h y (by simp)), ih (fun z hz => h z (by simp [hz]))]
    rfl

theorem sortByDesc_of_sorted (f : α → Int) (l : List α)
    (h : SortedDescBy f l) : sortByDesc f l = l := by
  induction l using List.reverseRecOn with
  | nil => rfl
  | append_singleton l x ih =>
    rw [sortByDesc_append_singleton]
    have hsplit := List.pairwise_append.mp h
    rw [ih hsplit.1]
    exact insertDescBy_of_all_ge f x l (fun y hy => hsplit.2.2 y hy x (by simp))

theorem insertDescBy_filter_key (f : α → Int) (x : α) (l : List α) (p : Int)
    (hs : SortedDescBy f l) :
    (insertDescBy f x l).filter (fun y => f y == p) =
      if f x = p then l.filter (fun y => f y == p) ++ [x]
      else l.filter (fun y => f y == p) := by
  induction l with
  | nil =>
    by_cases hxp : f x = p <;> simp [insertDescBy, hxp]
  | cons y ys ih =>
    rcases List.pairwise_cons.mp hs with ⟨hy, hys⟩
    rw [insertDescBy]
    by_cases hcmp : f x ≤ f y
    · rw [if_pos hcmp]
      simp only [List.filter_cons, ih hys]
      by_cases hxp : f x = p
      · simp only [hxp, if_pos rfl]
        by_cases hyp : f y = p <;> simp [hyp]
      · simp [hxp]
    · rw [if_neg hcmp]
      push_neg at hcmp
      by_cases hxp : f x = p
      · have hfilt : (y :: ys).filter (fun z => f z == p) = [] := by
          rw [List.filter_eq_nil_iff]
          intro z hz
          rcases List.mem_cons.mp hz with rfl | hzys
          · simp only [beq_iff_eq]
            omega
          · have := hy z hzys
            simp only [beq_iff_eq]
            omega
        simp [List.filter_cons, hxp, hfilt]
      · simp [List.filter_cons, hxp]

theorem sortByDesc_filter_key (f : α → Int) (l : List α) (p : Int) :
    (sortByDesc f l).filter (fun y => f y == p) =
      l.filter (fun y => f y == p) := by
  induction l using List.reverseRecOn with
  | nil => rfl
  | append_singleton l x ih =>
    rw [sortByDesc_append_singleton,
      insertDescBy_filter_key f x _ p (sortByDesc_sorted f l), List.filter_append]
    by_cases hxp : f x = p <;> simp [hxp, ih]

theorem storedRulesOf_append_singleton (l : List DynamicRoutingRule)
    (r : DynamicRoutingRule) :
    storedRulesOf (l ++ [r]) =
      (match router_add_dynamic_rule (storedRulesOf l) r with
        | .ok rules => rules
        | .error _ => storedRulesOf l) := by
  simp [storedRulesOf, List.foldl_append]

theorem storedRulesOf_eq_sort (inserted : List DynamicRoutingRule)
    (h : (inserted.map (fun r => r.id)).Nodup) :
    storedRulesOf inserted = sortByDesc (fun r => r.priority) inserted := by
  induction inserted using List.reverseRecOn with
  | nil => rfl
  | append_singleton l r ih =>
    rw [List.map_append] at h
    have hsplit := List.nodup_append.mp h
    have hl : (l.map (fun q => q.id)).Nodup := hsplit.1
    have hnotin : r.id ∉ l.map (fun q => q.id) := by
      intro hmem
      exact hsplit.2.2 hmem (by simp)
    rw [storedRulesOf_append_singleton, ih hl, router_add_dynamic_rule]
    have hany : ((sortByDesc (fun q => q.priority) l).any
        (fun q => q.id == r.id)) = false := by
      rw [List.any_eq_false]
      intro q hq
      have hql : q ∈ l := (sortByDesc_perm _ l).mem_iff.mp hq
      simp only [beq_iff_eq]
      intro hqq
      exact hnotin (hqq ▸ List.mem_map_of_mem _ hql)
    rw [hany]
    simp only [Bool.false_eq_true, if_false]
    rw [sortByDesc_append_singleton,
      sortByDesc_of_sorted _ _ (sortByDesc_sorted _ l),
      ← sortByDesc_append_singleton]

/-- C4: over any rule configuration built by `router_add_dynamic_rule` from
rules with distinct ids, `router_match_dynamic_rule text` returns `none`
exactly when no enabled rule has a keyword matching the text, and otherwise
returns a matching enabled rule of maximal priority among the matching
rules, the earliest-inserted one among those of that priority. -/
theorem c4_match_dynamic_rule (inserted : List DynamicRoutingRule)
    (text : String) (hids : (inserted.map (fun r => r.id)).Nodup) :
    (router_match_dynamic_rule text (storedRulesOf inserted) = none ↔
      ∀ r ∈ inserted, rule_matches text r = false) ∧
    (∀ r, router_match_dynamic_rule text (storedRulesOf inserted) = some r →
      r ∈ inserted ∧ rule_matches text r = true ∧
      (∀ q ∈ inserted, rule_matches text q = true → q.priority ≤ r.priority) ∧
      (inserted.filter (fun q =>
        rule_matches text q && (q.priority == r.priority))).head? = some r) := by
  rw [storedRulesOf_eq_sort inserted hids]
  constructor
  · rw [router_match_dynamic_rule, List.find?_eq_none]
    constructor
    · intro h r hr
      have := h r ((sortByDesc_perm _ inserted).mem_iff.mpr hr)
      simpa using this
    · intro h r hr
      have := h r ((sortByDesc_perm _ inserted).mem_iff.mp hr)
      simp [this]
  · intro r hfind
    rw [router_match_dynamic_rule] at hfind
    have hmem : r ∈ inserted :=
      (sortByDesc_perm _ inserted).mem_iff.mp (List.mem_of_find?_eq_some hfind)
    obtain ⟨hpr, pre, post, hconcat, hpre⟩ := List.find?_eq_some.mp hfind
    refine ⟨hmem, hpr, ?_, ?_⟩
    · intro q hq hqmatch
      have hqsort : q ∈ sortByDesc (fun s => s.priority) inserted :=
        (sortByDesc_perm _ inserted).mem_iff.mpr hq
      rw [hconcat] at hqsort
      rcases List.mem_append.mp hqsort with hqpre | hqpost
      · have := hpre q hqpre
        rw [hqmatch] at this
        simp at this
      · rcases List.mem_cons.mp hqpost with rfl | hqpost2
        · exact le_refl _
        · have hsorted := sortByDesc_sorted (fun s => s.priority) inserted
          rw [hconcat] at hsorted
          have hrpost := (List.pairwise_append.mp hsorted).2.1
          exact (List.pairwise_cons.mp hrpost).1 q hqpost2
    · have hstab := sortByDesc_filter_key (fun s => s.priority) inserted r.priority
      have hcomm :
          (sortByDesc (fun s => s.priority) inserted).filter
            (fun q => rule_matches text q && (q.priority == r.priority)) =
          inserted.filter
            (fun q => rule_matches text q && (q.priority == r.priority)) := by
        have h1 := congrArg (List.filter (rule_matches text)) hstab
        simpa [List.filter_filter] using h1
      rw [← hcomm, hconcat, List.filter_append]
      have hprefilter : pre.filter
          (fun q => rule_matches text q && (q.priority == r.priority)) = [] := by
        rw [List.filter_eq_nil_iff]
        intro q hq
        have := hpre q hq
        simp only [Bool.not_eq_eq_eq_not, Bool.not_true] at this
        simp [this]
      rw [hprefilter, List.nil_append, List.filter_cons]
      simp [hpr]

/-- Scenario S6 rule `a` from the spec. -/
def sampleRuleA : DynamicRoutingRule :=
  { id := "a", keywords := ["review"], target_model := "openai,gpt-4o",
    priority := 10, enabled := true }

/-- Scenario S6 rule `b` from the spec. -/
def sampleRuleB : DynamicRoutingRule :=
  { id := "b", keywords := ["REVIEW", "code"], target_model := "anthropic,opus",
    priority := 20, enabled := true }

/-- C4 witness: the spec's scenario S6 — after inserting rules `a` (priority
10) and `b` (priority 20), matching `Please REVIEW this code` returns rule
`b`, of maximal priority and earliest among its priority class. -/
theorem c4_match_dynamic_rule_witness :
    sampleRuleB ∈ [sampleRuleA, sampleRuleB] ∧
    rule_matches "Please REVIEW this code" sampleRuleB = true ∧
    (∀ q ∈ [sampleRuleA, sampleRuleB],
      rule_matches "Please REVIEW this code" q = true →
        q.priority ≤ sampleRuleB.priority) ∧
    ([sampleRuleA, sampleRuleB].filter (fun q =>
      rule_matches "Please REVIEW this code" q &&
        (q.priority == sampleRuleB.priority))).head? = some sampleRuleB :=
  (c4_match_dynamic_rule [sampleRuleA, sampleRuleB] "Please REVIEW this code"
    (by decide)).2 sampleRuleB (by decide)

/-! ## Theorems for C2 (project deduplication) -/

theorem foldl_insertIfAbsent_mem (xs acc : List String) (s : String) :
    s ∈ xs.foldl insertIfAbsent acc ↔ s ∈ acc ∨ s ∈ xs := by
  induction xs generalizing acc with
  | nil => simp
  | cons x rest ih =>
    rw [List.foldl_cons, ih]
    by_cases hx : x ∈ acc
    · have hsx : s = x → s ∈ acc := fun h => h ▸ hx
      simp only [insertIfAbsent, if_pos hx, List.mem_cons]
      tauto
    · simp only [insertIfAbsent, if_neg hx, List.mem_append, List.mem_cons,
        List.mem_singleton]
      tauto

theorem dedupKeepFirst_mem (l : List String) (s : String) :
    s ∈ dedupKeepFirst l ↔ s ∈ l := by
  simpa [dedupKeepFirst] using foldl_insertIfAbsent_mem l [] s

theorem foldl_insertIfAbsent_nodup (xs acc : List String) (h : acc.Nodup) :
    (xs.foldl insertIfAbsent acc).Nodup := by
  induction xs generalizing acc with
  | nil => exact h
  | cons x rest ih =>
    rw [List.foldl_cons]
    apply ih
    by_cases hx : x ∈ acc
    · simpa [insertIfAbsent, hx] using h
    · simp [insertIfAbsent, hx, List.nodup_append, h]

theorem dedupKeepFirst_nodup (l : List String) : (dedupKeepFirst l).Nodup :=
  foldl_insertIfAbsent_nodup l [] (by simp)

theorem dedupKeepFirst_append_singleton (xs : List String) (x : String) :
    dedupKeepFirst (xs ++ [x]) =
      if x ∈ xs then dedupKeepFirst xs else dedupKeepFirst xs ++ [x] := by
  have h1 : dedupKeepFirst (xs ++ [x]) = insertIfAbsent (dedupKeepFirst xs) x := by
    rw [dedupKeepFirst, List.foldl_append]
    rfl
  rw [h1]
  simp only [insertIfAbsent]
  by_cases hx : x ∈ xs
  · rw [if_pos ((dedupKeepFirst_mem xs x).mpr hx), if_pos hx]
  · rw [if_neg (fun hmem => hx ((dedupKeepFirst_mem xs x).mp hmem)), if_neg hx]

theorem find?_beq_self (K : List String) (k : String) (h : k ∈ K) :
    K.find? (fun x => x == k) = some k := by
  induction K with
  | nil => simp at h
  | cons a rest ih =>
    by_cases ha : a = k
    · subst ha
      rw [List.find?_cons_of_pos _ (by simp)]
    · rw [List.find?_cons_of_neg _ (by simp [ha])]
      apply ih
      rcases List.mem_cons.mp h with rfl | hrest
      · exact absurd rfl ha
      · exact hrest

theorem lookupProj_mapped (K : List String) (g : String → Project) (k : String) :
    lookupProj (K.map (fun x => (x, g x))) k =
      if k ∈ K then some (g k) else none := by
  induction K with
  | nil => simp [lookupProj]
  | cons a rest ih =>
    by_cases hak : a = k
    · subst hak
      rw [List.map_cons, lookupProj, List.find?_cons_of_pos _ (by simp)]
      simp
    · rw [List.map_cons, lookupProj, List.find?_cons_of_neg _ (by simp [hak])]
      rw [← lookupProj, ih]
      have hka : ¬(k = a) := fun h => hak h.symm
      simp [List.mem_cons, hka]

theorem updateProj_mapped (K : List String) (g : String → Project) (k : String)
    (v : Project) :
    updateProj (K.map (fun x => (x, g x))) k v =
      K.map (fun x => (x, if x = k then v else g x)) := by
  rw [updateProj, List.map_map]
  apply List.map_congr_left
  intro x _
  by_cases hxk : x = k
  · subst hxk
    simp
  · simp [hxk]

theorem bucketOf_append_singleton (inputs : List Project) (p : Project)
    (k : String) :
    bucketOf (inputs ++ [p]) k =
      bucketOf inputs k ++
        (if normalize_path_for_comparison p.path = k then [p] else []) := by
  rw [bucketOf, List.filter_append, bucketOf]
  by_cases h : normalize_path_for_comparison p.path = k <;> simp [h]

theorem bucketOf_ne_nil (inputs : List Project) (k : String)
    (h : k ∈ inputs.map (fun q => normalize_path_for_comparison q.path)) :
    bucketOf inputs k ≠ [] := by
  obtain ⟨q, hq, hkq⟩ := List.mem_map.mp h
  intro hnil
  have hmem : q ∈ bucketOf inputs k := List.mem_filter.mpr ⟨hq, by simp [hkq]⟩
  rw [hnil] at hmem
  simp at hmem

theorem bucketOf_eq_nil (inputs : List Project) (k : String)
    (h : k ∉ inputs.map (fun q => normalize_path_for_comparison q.path)) :
    bucketOf inputs k = [] := by
  rw [bucketOf, List.filter_eq_nil_iff]
  intro q hq
  simp only [beq_iff_eq]
  intro hqk
  exact h (List.mem_map.mpr ⟨q, hq, hqk⟩)

theorem mergeBucket_append_singleton (B : List Project) (p : Project)
    (h : B ≠ []) : mergeBucket (B ++ [p]) = mergeInto (mergeBucket B) p := by
  obtain ⟨b, rest, rfl⟩ := List.exists_cons_of_ne_nil h
  simp [mergeBucket, List.foldl_append]

theorem dedupeStep_mapped_mem (K : List String) (g : String → Project)
    (p : Project) (h : normalize_path_for_comparison p.path ∈ K) :
    dedupeStep (K.map (fun x => (x, g x))) p =
      K.map (fun x =>
        (x, if x = normalize_path_for_comparison p.path
          then mergeInto (g (normalize_path_for_comparison p.path)) p
          else g x)) := by
  simp only [dedupeStep, lookupProj_mapped, if_pos h]
  exact updateProj_mapped K g _ _

theorem dedupeStep_mapped_not_mem (K : List String) (g : String → Project)
    (p : Project) (h : normalize_path_for_comparison p.path ∉ K) :
    dedupeStep (K.map (fun x => (x, g x))) p =
      K.map (fun x => (x, g x)) ++
        [(normalize_path_for_comparison p.path, p)] := by
  simp only [dedupeStep, lookupProj_mapped, if_neg h]

theorem dedupe_foldl_closed (inputs : List Project) :
    inputs.foldl dedupeStep [] =
      (dedupKeepFirst (inputs.map
          (fun q => normalize_path_for_comparison q.path))).map
        (fun k => (k, mergeBucket (bucketOf inputs k))) := by
  induction inputs using List.reverseRecOn with
  | nil => rfl
  | append_singleton l p ih =>
    rw [List.foldl_append, List.foldl_cons, List.foldl_nil, ih, List.map_append,
      List.map_cons, List.map_nil, dedupKeepFirst_append_singleton]
    by_cases hmem : normalize_path_for_comparison p.path ∈
        l.map (fun q => normalize_path_for_comparison q.path)
    · rw [if_pos hmem,
        dedupeStep_mapped_mem _ _ _ ((dedupKeepFirst_mem _ _).mpr hmem)]
      apply List.map_congr_left
      intro x hx
      by_cases hxk : x = normalize_path_for_comparison p.path
      · subst hxk
        rw [if_pos rfl, bucketOf_append_singleton, if_pos rfl,
          mergeBucket_append_singleton _ _ (bucketOf_ne_nil l _ hmem)]
      · simp only [if_neg hxk]
        rw [bucketOf_append_singleton,
          if_neg (fun hh => hxk hh.symm), List.append_nil]
    · rw [if_neg hmem,
        dedupeStep_mapped_not_mem _ _ _ (fun hk =>
          hmem ((dedupKeepFirst_mem _ _).mp hk)), List.map_append,
        List.map_cons, List.map_nil]
      congr 1
      · apply List.map_congr_left
        intro x hx
        have hxl : x ∈ l.map (fun q => normalize_path_for_comparison q.path) :=
          (dedupKeepFirst_mem _ _).mp hx
        have hxk : normalize_path_for_comparison p.path ≠ x :=
          fun hh => hmem (hh ▸ hxl)
        rw [bucketOf_append_singleton, if_neg hxk, List.append_nil]
      · rw [bucketOf_append_singleton, if_pos rfl,
          bucketOf_eq_nil l _ hmem, List.nil_append]
        rfl

theorem foldl_mergeInto_path (B : List Project) (b : Project) :
    (B.foldl mergeInto b).path = b.path := by
  induction B generalizing b with
  | nil => rfl
  | cons x rest ih =>
    rw [List.foldl_cons, ih]
    rfl

theorem foldl_mergeInto_id (B : List Project) (b : Project) :
    (B.foldl mergeInto b).id =
      B.foldl (fun cur q => if should_update_id q.id cur then q.id else cur)
        b.id := by
  induction B generalizing b with
  | nil => rfl
  | cons x rest ih =>
    rw [List.foldl_cons, ih, List.foldl_cons]
    rfl

theorem foldl_mergeInto_created (B : List Project) (b : Project) :
    (B.foldl mergeInto b).created_at =
      B.foldl (fun acc q =>
          if acc < q.created_at then q.created_at else acc)
        b.created_at := by
  induction B generalizing b with
  | nil => rfl
  | cons x rest ih =>
    rw [List.foldl_cons, ih, List.foldl_cons]
    rfl

theorem foldl_maxCreated_spec (B : List Project) (c : Nat) :
    (B.foldl (fun acc q => if acc < q.created_at then q.created_at else acc) c ∈
      c :: B.map (fun q => q.created_at)) ∧
    c ≤ B.foldl (fun acc q =>
      if acc < q.created_at then q.created_at else acc) c ∧
    ∀ q ∈ B, q.created_at ≤
      B.foldl (fun acc q => if acc < q.created_at then q.created_at else acc) c := by
  induction B generalizing c with
  | nil => simp
  | cons x rest ih =>
    obtain ⟨ihmem, ihinit, ihall⟩ := ih (if c < x.created_at then x.created_at else c)
    refine ⟨?_, ?_, ?_⟩
    · rw [List.foldl_cons]
      rcases List.mem_cons.mp ihmem with h | h
      · rw [h]
        by_cases hc : c < x.created_at <;> simp [hc]
      · simp only [List.map_cons, List.mem_cons]
        tauto
    · rw [List.foldl_cons]
      refine le_trans ?_ ihinit
      by_cases hc : c < x.created_at <;> simp [hc]
      omega
    · intro q hq
      rw [List.foldl_cons]
      rcases List.mem_cons.mp hq with rfl | hrest
      · refine le_trans ?_ ihinit
        by_cases hc : c < q.created_at <;> simp [hc]
        omega
      · exact ihall q hrest

theorem foldl_mergeInto_sessions_mem (B : List Project) (b : Project)
    (s : String) :
    s ∈ (B.foldl mergeInto b).sessions ↔
      s ∈ b.sessions ∨ ∃ q ∈ B, s ∈ q.sessions := by
  induction B generalizing b with
  | nil => simp
  | cons x rest ih =>
    rw [List.foldl_cons, ih]
    have hsess : (mergeInto b x).sessions = mergeSessions b.sessions x.sessions :=
      rfl
    rw [hsess, mergeSessions, foldl_insertIfAbsent_mem]
    constructor
    · rintro ((hb | hx) | ⟨q, hq, hs⟩)
      · exact Or.inl hb
      · exact Or.inr ⟨x, by simp, hx⟩
      · exact Or.inr ⟨q, by simp [hq], hs⟩
    · rintro (hb | ⟨q, hq, hs⟩)
      · exact Or.inl (Or.inl hb)
      · rcases List.mem_cons.mp hq with rfl | hq2
        · exact Or.inl (Or.inr hs)
        · exact Or.inr ⟨q, hq2, hs⟩

/-- C2 counterexample: the entry for a bucket is *not* the one the claim's
tie-break rule picks.  Ids `abcd` and `a--B` have equal length; `abcd` lacks
`--` so the claimed rule (absence of `--` breaks the tie before upper-case
presence) picks `abcd`; the source's update condition lets the upper-case
test fire without re-checking the `--` test, so scanning `abcd` then `a--B`
ends with id `a--B`. -/
theorem c2_id_rule_counterexample :
    (list_projects_dedupe
      [{ id := "abcd", path := "/p", sessions := ["s1"], created_at := 5 },
       { id := "a--B", path := "/p", sessions := ["s2"], created_at := 3 }]).map
        (fun p => p.id) = ["a--B"] ∧
    claimedIdBetter "abcd" "a--B" = true := by
  decide

theorem or_exists_mem_cons (P : α → Prop) (x : α) (l : List α) :
    (P x ∨ ∃ q ∈ l, P q) ↔ ∃ q ∈ x :: l, P q := by
  constructor
  · rintro (hx | ⟨q, hq, hs⟩)
    · exact ⟨x, by simp, hx⟩
    · exact ⟨q, by simp [hq], hs⟩
  · rintro ⟨q, hq, hs⟩
    rcases List.mem_cons.mp hq with rfl | hq2
    · exact Or.inl hs
    · exact Or.inr ⟨q, hq2, hs⟩

/-- C2 (amended): `list_projects` deduplication returns one entry per group
of byte-equal normalized paths (its normalized paths are a permutation of
the distinct scanned normalized paths); each entry's sessions are the
duplicate-free union of its group members' sessions, its activity timestamp
is the greatest of the group, and its id is the result of folding the
source's replacement rule (`should_update_id`) over the group's ids in scan
order — not the claim's shortest/`--`/upper-case lexicographic choice, which
the counterexample refutes. -/
theorem c2_list_projects_dedupe_properties (inputs : List Project) :
    ((list_projects_dedupe inputs).map
        (fun p => normalize_path_for_comparison p.path)).Perm
      (dedupKeepFirst (inputs.map
        (fun p => normalize_path_for_comparison p.path))) ∧
    (∀ e ∈ list_projects_dedupe inputs,
      bucketOf inputs (normalize_path_for_comparison e.path) ≠ [] ∧
      e.sessions.Nodup ∧
      (∀ s, s ∈ e.sessions ↔
        ∃ b ∈ bucketOf inputs (normalize_path_for_comparison e.path),
          s ∈ b.sessions) ∧
      e.created_at ∈
        (bucketOf inputs (normalize_path_for_comparison e.path)).map
          (fun b => b.created_at) ∧
      (∀ b ∈ bucketOf inputs (normalize_path_for_comparison e.path),
        b.created_at ≤ e.created_at) ∧
      e.id = idFoldOf
        ((bucketOf inputs (normalize_path_for_comparison e.path)).map
          (fun b => b.id))) := by
  have hvals2 : list_projects_dedupe inputs =
      sortByDesc (fun p => (p.created_at : Int))
        ((dedupKeepFirst (inputs.map
            (fun q => normalize_path_for_comparison q.path))).map
          (fun k =>
            { mergeBucket (bucketOf inputs k) with
              sessions :=
                dedupKeepFirst (mergeBucket (bucketOf inputs k)).sessions })) := by
    simp only [list_projects_dedupe]
    rw [dedupe_foldl_closed, List.map_map, List.map_map]
    rfl
  have hkey : ∀ k ∈ dedupKeepFirst (inputs.map
      (fun q => normalize_path_for_comparison q.path)),
      bucketOf inputs k ≠ [] ∧
      normalize_path_for_comparison (mergeBucket (bucketOf inputs k)).path = k := by
    intro k hk
    have hk2 := (dedupKeepFirst_mem _ _).mp hk
    have hne := bucketOf_ne_nil inputs k hk2
    refine ⟨hne, ?_⟩
    obtain ⟨b, rest, hb⟩ := List.exists_cons_of_ne_nil hne
    rw [hb, show mergeBucket (b :: rest) = rest.foldl mergeInto b from rfl,
      foldl_mergeInto_path]
    have hbmem : b ∈ bucketOf inputs k := hb ▸ List.mem_cons_self b rest
    have := List.of_mem_filter hbmem
    simpa using this
  constructor
  · rw [hvals2]
    refine ((sortByDesc_perm _ _).map _).trans ?_
    rw [List.map_map]
    have hmapid : (dedupKeepFirst (inputs.map
        (fun q => normalize_path_for_comparison q.path))).map
        ((fun p => normalize_path_for_comparison p.path) ∘
          (fun k =>
            { mergeBucket (bucketOf inputs k) with
              sessions :=
                dedupKeepFirst (mergeBucket (bucketOf inputs k)).sessions })) =
        dedupKeepFirst (inputs.map
          (fun q => normalize_path_for_comparison q.path)) := by
      have hcong : ∀ k ∈ dedupKeepFirst (inputs.map
          (fun q => normalize_path_for_comparison q.path)),
          ((fun p => normalize_path_for_comparison p.path) ∘
            (fun k =>
              { mergeBucket (bucketOf inputs k) with
                sessions :=
                  dedupKeepFirst (mergeBucket (bucketOf inputs k)).sessions })) k =
            id k := fun k hk => (hkey k hk).2
      rw [List.map_congr_left hcong, List.map_id]
    rw [hmapid]
  · intro e he
    rw [hvals2] at he
    have he2 := (sortByDesc_perm _ _).mem_iff.mp he
    obtain ⟨k, hk, hek⟩ := List.mem_map.mp he2
    obtain ⟨hne, hnorm⟩ := hkey k hk
    subst hek
    have hpath : normalize_path_for_comparison
        ({ mergeBucket (bucketOf inputs k) with
            sessions :=
              dedupKeepFirst (mergeBucket (bucketOf inputs k)).sessions } :
          Project).path = k := hnorm
    rw [hpath]
    obtain ⟨b, rest, hb⟩ := List.exists_cons_of_ne_nil hne
    have hmb : mergeBucket (bucketOf inputs k) = rest.foldl mergeInto b := by
      rw [hb]
      rfl
    refine ⟨hne, ?_, ?_, ?_, ?_, ?_⟩
    · exact dedupKeepFirst_nodup _
    · intro s
      have hs1 : s ∈ ({ mergeBucket (bucketOf inputs k) with
          sessions :=
            dedupKeepFirst (mergeBucket (bucketOf inputs k)).sessions } :
            Project).sessions ↔
          s ∈ (mergeBucket (bucketOf inputs k)).sessions :=
        dedupKeepFirst_mem _ s
      rw [hs1, hmb, foldl_mergeInto_sessions_mem, hb,
        or_exists_mem_cons (fun q => s ∈ q.sessions) b rest]
    · have hc : ({ mergeBucket (bucketOf inputs k) with
          sessions :=
            dedupKeepFirst (mergeBucket (bucketOf inputs k)).sessions } :
          Project).created_at = (rest.foldl mergeInto b).created_at := by
        rw [← hmb]
      rw [hc, foldl_mergeInto_created, hb, List.map_cons]
      exact (foldl_maxCreated_spec rest b.created_at).1
    · intro q hq
      have hc : ({ mergeBucket (bucketOf inputs k) with
          sessions :=
            dedupKeepFirst (mergeBucket (bucketOf inputs k)).sessions } :
          Project).created_at = (rest.foldl mergeInto b).created_at := by
        rw [← hmb]
      rw [hc, foldl_mergeInto_created]
      rw [hb] at hq
      rcases List.mem_cons.mp hq with rfl | hq2
      · exact (foldl_maxCreated_spec rest q.created_at).2.1
      · exact (foldl_maxCreated_spec rest b.created_at).2.2 q hq2
    · have hi : ({ mergeBucket (bucketOf inputs k) with
          sessions :=
            dedupKeepFirst (mergeBucket (bucketOf inputs k)).sessions } :
          Project).id = (rest.foldl mergeInto b).id := by
        rw [← hmb]
      rw [hi, foldl_mergeInto_id, hb, List.map_cons,
        show idFoldOf (b.id :: (rest.map (fun q => q.id))) =
          (rest.map (fun q => q.id)).foldl
            (fun cur n => if should_update_id n cur then n else cur) b.id from rfl,
        List.foldl_map]

/-- C2 witness: a single scanned project is its own bucket; the returned
entry keeps its path group, sessions, activity and id. -/
theorem c2_list_projects_dedupe_properties_witness :
    bucketOf [{ id := "a", path := "/p", sessions := ["s"], created_at := 1 }]
      (normalize_path_for_comparison "/p") ≠ [] ∧
    (["s"] : List String).Nodup ∧
    (∀ s, s ∈ (["s"] : List String) ↔
      ∃ b ∈ bucketOf
          [{ id := "a", path := "/p", sessions := ["s"], created_at := 1 }]
          (normalize_path_for_comparison "/p"), s ∈ b.sessions) ∧
    1 ∈ (bucketOf [{ id := "a", path := "/p", sessions := ["s"], created_at := 1 }]
        (normalize_path_for_comparison "/p")).map (fun b => b.created_at) ∧
    (∀ b ∈ bucketOf
        [{ id := "a", path := "/p", sessions := ["s"], created_at := 1 }]
        (normalize_path_for_comparison "/p"), b.created_at ≤ 1) ∧
    "a" = idFoldOf ((bucketOf
        [{ id := "a", path := "/p", sessions := ["s"], created_at := 1 }]
        (normalize_path_for_comparison "/p")).map (fun b => b.id)) :=
  (c2_list_projects_dedupe_properties
      [{ id := "a", path := "/p", sessions := ["s"], created_at := 1 }]).2
    { id := "a", path := "/p", sessions := ["s"], created_at := 1 }
    (by decide)

/-! ## Theorems for C1 (checkpoint restore rewrites the session JSONL) -/

/-- C1: whenever `restore_checkpoint` succeeds with mode `ConversationOnly`
or `Both` over a store whose entries are keyed by their own project id, the
session JSONL at `projects/<project_id>/<session_id>.jsonl` afterwards holds
exactly the concatenated bytes of the restored checkpoint's stored tracked
messages. -/
theorem c1_restore_checkpoint_writes_tracked_messages
    (store : CheckpointStore) (fs : SessionFs)
    (checkpoint_id session_id project_id : String)
    (restore_mode : Option String)
    (hwf : ∀ e ∈ store, e.snd.project_id = e.fst.1)
    (fs2 : SessionFs) (result : CheckpointData)
    (hok : restore_checkpoint store fs checkpoint_id session_id project_id
      restore_mode = .ok (fs2, result))
    (hmode : parse_restore_mode restore_mode = .ok .ConversationOnly ∨
      parse_restore_mode restore_mode = .ok .Both) :
    fsRead fs2 (session_jsonl_path project_id session_id) =
      some (String.join result.tracked_messages) := by
  cases hfind : store.find?
      (fun e => e.fst == (project_id, session_id, checkpoint_id)) with
  | none =>
    rcases hmode with h | h <;>
      simp [restore_checkpoint, h, restore_checkpoint_with_mode, hfind] at hok
  | some entry =>
    have hkey : entry.fst = (project_id, session_id, checkpoint_id) := by
      have hp := List.find?_some hfind
      simpa using hp
    have hpid : entry.snd.project_id = project_id := by
      rw [hwf entry (List.mem_of_find?_eq_some hfind), hkey]
    have hout : fs2 =
        fsWrite fs (session_jsonl_path project_id session_id)
          (String.join entry.snd.tracked_messages) ∧ result = entry.snd := by
      rcases hmode with h | h <;>
        · simp [restore_checkpoint, h, restore_checkpoint_with_mode, hfind,
            load_checkpoint, hpid] at hok
          exact ⟨hok.1.symm, hok.2.symm⟩
    rcases hout with ⟨hfs2, hres⟩
    subst hfs2
    subst hres
    rw [fsRead, fsWrite, List.find?_cons_of_pos _ (by simp)]
    rfl

/-- C1 witness: restoring checkpoint `cp` with mode `both` over a one-entry
store rewrites `projects/proj/sess.jsonl` to the concatenation
`l1\nl2\n` of the two tracked lines. -/
theorem c1_restore_checkpoint_writes_tracked_messages_witness :
    fsRead [("projects/proj/sess.jsonl", "l1\nl2\n")]
        (session_jsonl_path "proj" "sess") =
      some (String.join ["l1\n", "l2\n"]) :=
  c1_restore_checkpoint_writes_tracked_messages
    [(("proj", "sess", "cp"),
      { project_id := "proj", session_id := "sess",
        tracked_messages := ["l1\n", "l2\n"] })]
    [] "cp" "sess" "proj" (some "both")
    (by
      intro e he
      simp at he
      rw [he])
    [("projects/proj/sess.jsonl", "l1\nl2\n")]
    { project_id := "proj", session_id := "sess",
      tracked_messages := ["l1\n", "l2\n"] }
    (by rfl)
    (Or.inr (by rfl))
